import Mathlib

/-!
# Verification of the PageSpeed scanner core (`scanner.py`)

A shallow embedding of the scanner module of the `webperformancescanner`
repository, together with theorems settling the specification's claims about
it.  The Python source is translated as follows:

* JSON payloads of the PageSpeed API are modelled by structures whose fields
  are the keys the code actually reads; an absent key is `Option.none`.
* Python dicts built from key/value pairs are modelled by association lists
  in insertion order; `pyLookup` returns the value of the *last* binding for
  a key, which is what a Python dict comprehension or JSON parse yields when
  a key repeats.
* Python `int()` truncation, `or`-fallback and truthiness tests on numbers
  are modelled explicitly (`pyInt`, `pyOrNum`, `pyTruthyD`).
* Machine floats are modelled by `ℚ`; `time.monotonic()` instants and token
  balances are rationals.
* `list.sort` (stable) is modelled by `List.insertionSort`, which inserts an
  earlier element *before* later equal elements, matching Python stability.
* The thread pool is modelled by its observable effect: the collected result
  list is an arbitrary permutation of the per-job results, and the
  rate-limiter lock makes every check-refill-debit step atomic, so a
  concurrent execution is a sequence of atomic `acquireStep`s.
-/

namespace Scanner

/-! ## Python-value primitives -/

/-- A Python/JSON scalar as it appears in a result dict. -/
inductive PyVal where
  | none
  | str (s : String)
  | num (q : ℚ)
  | int (z : ℤ)
  | bool (b : Bool)
deriving DecidableEq, Repr

/-- Decidable equality of `Except` results (absent from core). -/
instance {e a : Type} [DecidableEq e] [DecidableEq a] : DecidableEq (Except e a) :=
  fun x y =>
    match x, y with
    | Except.ok v, Except.ok w =>
      if h : v = w then Decidable.isTrue (congrArg Except.ok h)
      else Decidable.isFalse (fun hc => h (Except.ok.inj hc))
    | Except.error v, Except.error w =>
      if h : v = w then Decidable.isTrue (congrArg Except.error h)
      else Decidable.isFalse (fun hc => h (Except.error.inj hc))
    | Except.ok _, Except.error _ => Decidable.isFalse (fun hc => Except.noConfusion hc)
    | Except.error _, Except.ok _ => Decidable.isFalse (fun hc => Except.noConfusion hc)

/-- Python `int()` applied to a number: truncation toward zero. -/
def pyInt (q : ℚ) : ℤ :=
  if 0 ≤ q then ⌊q⌋ else ⌈q⌉

/-- Lookup in a dict built from the listed bindings in order: the last
binding for a key wins, as in a Python dict comprehension. -/
def pyLookup {α : Type} : List (String × α) → String → Option α
  | [], _ => Option.none
  | (k, v) :: rest, key =>
    match pyLookup rest key with
    | Option.some v' => Option.some v'
    | Option.none => if k = key then Option.some v else Option.none

/-- Python `d.get(key, default)`. -/
def pyDictGet {α : Type} (ps : List (String × α)) (key : String) (dflt : α) : α :=
  (pyLookup ps key).getD dflt

/-- Python `a or b` on two optional numbers: the left value when it is
truthy (present and nonzero), otherwise the right value. -/
def pyOrNum (a b : Option ℚ) : Option ℚ :=
  match a with
  | Option.some v => if v = 0 then b else Option.some v
  | Option.none => b

/-- Python `x if x else d` on an optional number: `d` unless the value is
present and nonzero. -/
def pyTruthyD (a : Option ℚ) (d : ℚ) : ℚ :=
  match a with
  | Option.some v => if v = 0 then d else v
  | Option.none => d

/-- Round half to even (Python's `round`) to an integer. -/
def pyRoundInt (q : ℚ) : ℤ :=
  if q - ⌊q⌋ < 1 / 2 then ⌊q⌋
  else if 1 / 2 < q - ⌊q⌋ then ⌊q⌋ + 1
  else if ⌊q⌋ % 2 = 0 then ⌊q⌋ else ⌊q⌋ + 1

/-- Python `round(q, 1)`. -/
def pyRound1 (q : ℚ) : ℚ :=
  (pyRoundInt (q * 10) : ℚ) / 10

/-- Python `enumerate` paired into `{value: index}` bindings:
`enumPairs l i = [(l[0], i), (l[1], i+1), ...]`. -/
def enumPairs : List String → ℕ → List (String × ℕ)
  | [], _ => []
  | u :: rest, i => (u, i) :: enumPairs rest (i + 1)

/-! ## Module constants of `scanner.py` -/

def CATEGORIES : List String :=
  ["performance", "accessibility", "best-practices", "seo"]

def STRATEGIES : List String :=
  ["mobile", "desktop"]

def LAB_METRIC_IDS : List (String × String) :=
  [("first-contentful-paint", "FCP"),
   ("largest-contentful-paint", "LCP"),
   ("cumulative-layout-shift", "CLS"),
   ("total-blocking-time", "TBT"),
   ("speed-index", "Speed Index"),
   ("interactive", "TTI")]

def FIELD_METRIC_KEYS : List (String × String) :=
  [("FIRST_CONTENTFUL_PAINT_MS", "FCP"),
   ("LARGEST_CONTENTFUL_PAINT_MS", "LCP"),
   ("CUMULATIVE_LAYOUT_SHIFT_SCORE", "CLS"),
   ("INTERACTION_TO_NEXT_PAINT", "INP"),
   ("EXPERIMENTAL_TIME_TO_FIRST_BYTE", "TTFB"),
   ("FIRST_INPUT_DELAY_MS", "FID")]

def MAX_OPPORTUNITIES : ℕ := 10

def MAX_DIAGNOSTICS : ℕ := 5

def MAX_RETRIES : ℕ := 3

def RETRY_BASE_DELAY : ℚ := 4

def RETRYABLE_STATUS_CODES : List ℕ := [400, 429, 500, 502, 503]

def DEFAULT_RATE_LIMIT : ℚ := 5

/-! ## The API payload (the JSON keys the code reads) -/

/-- The dict `audit["details"]`: only `overallSavingsMs` is read. -/
structure AuditDetails where
  overallSavingsMs : Option ℚ
deriving DecidableEq, Repr

/-- One entry of `lighthouseResult.audits`. -/
structure Audit where
  score : Option ℚ
  numericValue : Option ℚ
  displayValue : Option String
  title : Option String
  description : Option String
  details : Option AuditDetails
deriving DecidableEq, Repr

def emptyAudit : Audit :=
  ⟨Option.none, Option.none, Option.none, Option.none, Option.none, Option.none⟩

def emptyDetails : AuditDetails :=
  ⟨Option.none⟩

/-- One entry of a category's `auditRefs`. -/
structure AuditRef where
  id : Option String
  group : Option String
deriving DecidableEq, Repr

/-- One entry of `lighthouseResult.categories`. -/
structure CategoryData where
  score : Option ℚ
  auditRefs : List AuditRef
deriving DecidableEq, Repr

def emptyCategoryData : CategoryData :=
  ⟨Option.none, []⟩

/-- One of the three distribution buckets of a CrUX metric. -/
structure Distribution where
  proportion : Option ℚ
deriving DecidableEq, Repr

/-- One entry of `loadingExperience.metrics`. -/
structure FieldMetric where
  category : Option String
  percentile : Option ℚ
  distributions : List Distribution
deriving DecidableEq, Repr

/-- The `loadingExperience` section. -/
structure LoadingExperience where
  overall_category : Option String
  origin_fallback : Option Bool
  metrics : List (String × FieldMetric)
deriving DecidableEq, Repr

def emptyLoadingExperience : LoadingExperience :=
  ⟨Option.none, Option.none, []⟩

/-- The `lighthouseResult` section. -/
structure LighthouseResult where
  categories : List (String × CategoryData)
  audits : List (String × Audit)
deriving DecidableEq, Repr

/-- A successful API response body. -/
structure Payload where
  lighthouseResult : Option LighthouseResult
  loadingExperience : Option LoadingExperience
deriving DecidableEq, Repr

/-- Python `data.get("lighthouseResult", {}).get("categories", {})`. -/
def lhCategories (data : Payload) : List (String × CategoryData) :=
  match data.lighthouseResult with
  | Option.some lh => lh.categories
  | Option.none => []

/-- Python `data.get("lighthouseResult", {}).get("audits", {})`. -/
def lhAudits (data : Payload) : List (String × Audit) :=
  match data.lighthouseResult with
  | Option.some lh => lh.audits
  | Option.none => []

/-! ## `_extract_category_scores` -/

/-- The body of the loop of `_extract_category_scores` for one category:
`int(cat_data["score"] * 100)` when the category is present with a non-null
score, `None` otherwise. -/
def catScore (data : Payload) (cat : String) : Option ℤ :=
  match pyLookup (lhCategories data) cat with
  | Option.some catData =>
    match catData.score with
    | Option.some s => Option.some (pyInt (s * 100))
    | Option.none => Option.none
  | Option.none => Option.none

/-- The dict returned by `_extract_category_scores`: one entry per name in
`CATEGORIES`. -/
structure CategoryScores where
  performance : Option ℤ
  accessibility : Option ℤ
  bestPractices : Option ℤ
  seo : Option ℤ
deriving DecidableEq, Repr

def extractCategoryScores (data : Payload) : CategoryScores :=
  { performance := catScore data "performance"
    accessibility := catScore data "accessibility"
    bestPractices := catScore data "best-practices"
    seo := catScore data "seo" }

/-! ## `_extract_lab_metrics` -/

def optStr (s : Option String) : PyVal :=
  match s with
  | Option.some v => PyVal.str v
  | Option.none => PyVal.none

def optNum (q : Option ℚ) : PyVal :=
  match q with
  | Option.some v => PyVal.num v
  | Option.none => PyVal.none

def extractLabMetrics (data : Payload) : List (String × PyVal) :=
  LAB_METRIC_IDS.flatMap fun p =>
    let audit := (pyLookup (lhAudits data) p.1).getD emptyAudit
    [("lab_" ++ p.2, optStr audit.displayValue),
     ("lab_" ++ p.2 ++ "_value", optNum audit.numericValue),
     ("lab_" ++ p.2 ++ "_score",
       match audit.score with
       | Option.some s => PyVal.int (pyInt (s * 100))
       | Option.none => PyVal.none)]

/-! ## `_extract_field_data` -/

/-- The entries contributed by one key of `FIELD_METRIC_KEYS`. -/
def fieldMetricEntries (metrics : List (String × FieldMetric)) (p : String × String) :
    List (String × PyVal) :=
  match pyLookup metrics p.1 with
  | Option.some m =>
    [("field_" ++ p.2 ++ "_category", optStr m.category),
     ("field_" ++ p.2 ++ "_percentile", optNum m.percentile)] ++
    (if m.distributions.length = 3 then
      [("field_" ++ p.2 ++ "_good",
         PyVal.num (pyRound1 (((m.distributions.get? 0).getD ⟨Option.none⟩).proportion.getD 0 * 100))),
       ("field_" ++ p.2 ++ "_needs_improvement",
         PyVal.num (pyRound1 (((m.distributions.get? 1).getD ⟨Option.none⟩).proportion.getD 0 * 100))),
       ("field_" ++ p.2 ++ "_poor",
         PyVal.num (pyRound1 (((m.distributions.get? 2).getD ⟨Option.none⟩).proportion.getD 0 * 100)))]
     else [])
  | Option.none =>
    [("field_" ++ p.2 ++ "_category", PyVal.none),
     ("field_" ++ p.2 ++ "_percentile", PyVal.none)]

def extractFieldData (data : Payload) : List (String × PyVal) :=
  let le := data.loadingExperience.getD emptyLoadingExperience
  [("field_overall", optStr le.overall_category),
   ("field_origin_fallback", PyVal.bool (le.origin_fallback.getD false))] ++
  FIELD_METRIC_KEYS.flatMap (fieldMetricEntries le.metrics)

/-! ## `_extract_opportunities` and `_extract_diagnostics` -/

/-- One record appended by the loop of `_extract_opportunities`. -/
structure Opportunity where
  id : String
  title : String
  description : String
  savings_ms : ℚ
  display_value : String
  score : Option ℚ
deriving DecidableEq, Repr

/-- One record appended by the loop of `_extract_diagnostics`. -/
structure Diagnostic where
  id : String
  title : String
  description : String
  display_value : String
  score : Option ℚ
deriving DecidableEq, Repr

/-- The list `perf_cat.get("auditRefs", [])` where `perf_cat` is the performance
category of the payload. -/
def perfAuditRefs (data : Payload) : List AuditRef :=
  ((pyLookup (lhCategories data) "performance").getD emptyCategoryData).auditRefs

/-- The dict appended for one kept audit ref: `savings_ms` is
`details.overallSavingsMs or numericValue`, coerced to `0` when falsy. -/
def mkOpportunity (audits : List (String × Audit)) (ref : AuditRef) : Opportunity :=
  let auditId := ref.id.getD ""
  let audit := (pyLookup audits auditId).getD emptyAudit
  { id := auditId
    title := audit.title.getD auditId
    description := audit.description.getD ""
    savings_ms := pyTruthyD (pyOrNum ((audit.details.getD emptyDetails).overallSavingsMs)
      audit.numericValue) 0
    display_value := audit.displayValue.getD ""
    score := audit.score }

/-- The `for ref in audit_refs` loop of `_extract_opportunities`: skip refs
not in the "opportunity" group and audits whose score equals 1, append the
rest in order. -/
def collectOpportunities (audits : List (String × Audit)) : List AuditRef → List Opportunity
  | [] => []
  | ref :: rest =>
    if ref.group ≠ Option.some "opportunity" then collectOpportunities audits rest
    else
      let audit := (pyLookup audits (ref.id.getD "")).getD emptyAudit
      if audit.score = Option.some 1 then collectOpportunities audits rest
      else mkOpportunity audits ref :: collectOpportunities audits rest

/-- The stable descending comparison used by
`opportunities.sort(key=..., reverse=True)`. -/
def oppGE (a b : Opportunity) : Prop := b.savings_ms ≤ a.savings_ms

instance : DecidableRel oppGE := fun a b =>
  inferInstanceAs (Decidable (b.savings_ms ≤ a.savings_ms))

instance : IsTotal Opportunity oppGE :=
  ⟨fun a b => le_total b.savings_ms a.savings_ms⟩

instance : IsTrans Opportunity oppGE :=
  ⟨fun _ _ _ h1 h2 => le_trans h2 h1⟩

def extractOpportunities (data : Payload) : List Opportunity :=
  ((collectOpportunities (lhAudits data) (perfAuditRefs data)).insertionSort oppGE).take
    MAX_OPPORTUNITIES

def mkDiagnostic (audits : List (String × Audit)) (ref : AuditRef) : Diagnostic :=
  let auditId := ref.id.getD ""
  let audit := (pyLookup audits auditId).getD emptyAudit
  { id := auditId
    title := audit.title.getD auditId
    description := audit.description.getD ""
    display_value := audit.displayValue.getD ""
    score := audit.score }

def collectDiagnostics (audits : List (String × Audit)) : List AuditRef → List Diagnostic
  | [] => []
  | ref :: rest =>
    if ref.group ≠ Option.some "diagnostics" then collectDiagnostics audits rest
    else
      let audit := (pyLookup audits (ref.id.getD "")).getD emptyAudit
      if audit.score = Option.some 1 then collectDiagnostics audits rest
      else mkDiagnostic audits ref :: collectDiagnostics audits rest

def extractDiagnostics (data : Payload) : List Diagnostic :=
  (collectDiagnostics (lhAudits data) (perfAuditRefs data)).take MAX_DIAGNOSTICS

/-! ## `_scan_single` and the result records of `scan_urls` -/

/-- The dict returned by `_scan_single` (the same shape is built for a
terminally failed fetch and for an unexpected worker exception). -/
structure ResultRecord where
  url : String
  strategy : String
  performance : Option ℤ
  accessibility : Option ℤ
  bestPractices : Option ℤ
  seo : Option ℤ
  lab_metrics : List (String × PyVal)
  field_data : List (String × PyVal)
  opportunities : List Opportunity
  diagnostics : List Diagnostic
deriving DecidableEq, Repr

/-- The all-null record built when `_fetch_pagespeed` returns `None`, and
also when a worker raises an unexpected exception. -/
def nullRecord (url strategy : String) : ResultRecord :=
  { url := url
    strategy := strategy
    performance := Option.none
    accessibility := Option.none
    bestPractices := Option.none
    seo := Option.none
    lab_metrics := []
    field_data := []
    opportunities := []
    diagnostics := [] }

/-- The function `_scan_single`, with the terminal outcome of `_fetch_pagespeed` for each
job given by the oracle `fetch` (`none` covers both a terminal fetch failure
and an unexpected worker exception, which produce the same record). -/
def scanSingle (fetch : String → String → Option Payload) (url strategy : String) :
    ResultRecord :=
  match fetch url strategy with
  | Option.none => nullRecord url strategy
  | Option.some data =>
    let scores := extractCategoryScores data
    { url := url
      strategy := strategy
      performance := scores.performance
      accessibility := scores.accessibility
      bestPractices := scores.bestPractices
      seo := scores.seo
      lab_metrics := extractLabMetrics data
      field_data := extractFieldData data
      opportunities := extractOpportunities data
      diagnostics := extractDiagnostics data }

/-- The job list of `scan_urls`:
`[(url, strategy) for url in urls for strategy in STRATEGIES]`. -/
def scanJobs (urls : List String) : List (String × String) :=
  urls.flatMap fun url => STRATEGIES.map fun strategy => (url, strategy)

/-- The multiset of records produced by the worker pool, in job order. -/
def scanResults (fetch : String → String → Option Payload) (urls : List String) :
    List ResultRecord :=
  (scanJobs urls).map fun j => scanSingle fetch j.1 j.2

/-- Python `url_order.get(r["url"], len(urls))` with
`url_order = {url: idx for idx, url in enumerate(urls)}`. -/
def urlOrderGet (urls : List String) (u : String) : ℕ :=
  pyDictGet (enumPairs urls 0) u urls.length

/-- Python `strategy_order.get(r["strategy"], len(STRATEGIES))`. -/
def strategyOrderGet (s : String) : ℕ :=
  pyDictGet (enumPairs STRATEGIES 0) s STRATEGIES.length

/-- The sort key of the final `results.sort`. -/
def sortKey (urls : List String) (r : ResultRecord) : ℕ × ℕ :=
  (urlOrderGet urls r.url, strategyOrderGet r.strategy)

/-- Lexicographic comparison of Python tuples, non-strict. -/
def keyLE (a b : ℕ × ℕ) : Prop :=
  a.1 < b.1 ∨ (a.1 = b.1 ∧ a.2 ≤ b.2)

/-- Lexicographic comparison of Python tuples, strict. -/
def keyLT (a b : ℕ × ℕ) : Prop :=
  a.1 < b.1 ∨ (a.1 = b.1 ∧ a.2 < b.2)

instance : DecidableRel keyLE := fun a b =>
  inferInstanceAs (Decidable (a.1 < b.1 ∨ (a.1 = b.1 ∧ a.2 ≤ b.2)))

instance : DecidableRel keyLT := fun a b =>
  inferInstanceAs (Decidable (a.1 < b.1 ∨ (a.1 = b.1 ∧ a.2 < b.2)))

/-- The record ordering used by the final `results.sort`. -/
def recLE (urls : List String) (a b : ResultRecord) : Prop :=
  keyLE (sortKey urls a) (sortKey urls b)

/-- Strict version of `recLE`. -/
def recLT (urls : List String) (a b : ResultRecord) : Prop :=
  keyLT (sortKey urls a) (sortKey urls b)

instance (urls : List String) : DecidableRel (recLE urls) := fun a b =>
  inferInstanceAs (Decidable (keyLE (sortKey urls a) (sortKey urls b)))

instance (urls : List String) : DecidableRel (recLT urls) := fun a b =>
  inferInstanceAs (Decidable (keyLT (sortKey urls a) (sortKey urls b)))

instance (urls : List String) : IsTotal ResultRecord (recLE urls) :=
  ⟨fun a b => by
    unfold recLE keyLE
    omega⟩

instance (urls : List String) : IsTrans ResultRecord (recLE urls) :=
  ⟨fun a b c hab hbc => by
    unfold recLE keyLE at hab hbc ⊢
    omega⟩

instance (urls : List String) : IsAntisymm ResultRecord (recLT urls) :=
  ⟨fun a b hab hba => by
    unfold recLT keyLT at hab hba
    omega⟩

/-- The function `scan_urls`, modelled on its observable data flow: the worker pool
collects the per-job records in an arbitrary completion order
(`completions`, a permutation of `scanResults fetch urls`), and the final
stable `results.sort` orders them by `sortKey`. -/
def scanUrls (urls : List String) (completions : List ResultRecord) : List ResultRecord :=
  completions.insertionSort (recLE urls)

/-! ## `_RateLimiter`

The lock makes each iteration of `acquire`'s `while` loop atomic, so any
concurrent execution is a sequence of `acquireStep`s at non-decreasing
`time.monotonic()` instants. -/

/-- The fields `self._tokens` and `self._last_refill`; `self._rate` is a parameter. -/
structure LimiterState where
  tokens : ℚ
  lastRefill : ℚ
deriving DecidableEq, Repr

/-- The constructor `_RateLimiter.__init__`: a full bucket. -/
def initLimiter (rate t0 : ℚ) : LimiterState :=
  ⟨rate, t0⟩

/-- The refill at instant `now`:
`tokens = min(rate, tokens + elapsed * rate); last_refill = now`. -/
def refillAt (rate now : ℚ) (s : LimiterState) : LimiterState :=
  ⟨min rate (s.tokens + (now - s.lastRefill) * rate), now⟩

/-- One atomic check-refill-debit iteration of `acquire`: refill, then debit
one token and return `true` when at least one token is available. -/
def acquireStep (rate now : ℚ) (s : LimiterState) : LimiterState × Bool :=
  if 1 ≤ (refillAt rate now s).tokens then
    (⟨(refillAt rate now s).tokens - 1, now⟩, true)
  else (refillAt rate now s, false)

/-- A sequence of `acquireStep`s at the listed instants; the second
component counts the successful debits. -/
def runSteps (rate : ℚ) : List ℚ → LimiterState → LimiterState × ℕ
  | [], s => (s, 0)
  | t :: ts, s =>
    let step := acquireStep rate t s
    let rest := runSteps rate ts step.1
    (rest.1, rest.2 + if step.2 then 1 else 0)

/-- One caller's `acquire` loop, checking at the listed instants (between
two checks the caller sleeps `1.0 / rate`): `some` of the state at the first
successful debit, `none` when the instants are exhausted without one. -/
def acquireLoop (rate : ℚ) : List ℚ → LimiterState → Option LimiterState
  | [], _ => Option.none
  | t :: ts, s =>
    let step := acquireStep rate t s
    if step.2 then Option.some step.1 else acquireLoop rate ts step.1

/-- The state invariant claimed for the bucket. -/
def limInv (rate : ℚ) (s : LimiterState) : Prop :=
  0 ≤ s.tokens ∧ s.tokens ≤ rate

/-! ## `_fetch_pagespeed`

The transport is an oracle mapping the (1-based) attempt number to the
outcome of `requests.get` for that attempt. -/

/-- The classified outcome of one `requests.get` call. -/
inductive TransportResult where
  | success (payload : Payload)
  | httpError (status : ℕ)
  | connectionError
  | timeout
  | otherRequestError
deriving DecidableEq, Repr

/-- The observable trace of one `_fetch_pagespeed` call: how many transport
calls were made, the `time.sleep` durations in order, and the returned
value. -/
structure FetchTrace where
  calls : ℕ
  sleeps : List ℚ
  result : Option Payload
deriving DecidableEq, Repr

/-- The `for attempt in range(1, MAX_RETRIES + 1)` loop of
`_fetch_pagespeed`; the fuel argument is `MAX_RETRIES + 1 - attempt`, the
number of loop iterations left. -/
def fetchAttempts (transport : ℕ → TransportResult) : ℕ → ℕ → FetchTrace
  | 0, _ => ⟨0, [], Option.none⟩
  | fuel + 1, attempt =>
    match transport attempt with
    | TransportResult.success p => ⟨1, [], Option.some p⟩
    | TransportResult.httpError status =>
      if status ∈ RETRYABLE_STATUS_CODES ∧ attempt < MAX_RETRIES then
        let rest := fetchAttempts transport fuel (attempt + 1)
        ⟨rest.calls + 1, RETRY_BASE_DELAY * 2 ^ (attempt - 1) :: rest.sleeps, rest.result⟩
      else ⟨1, [], Option.none⟩
    | TransportResult.connectionError =>
      if attempt < MAX_RETRIES then
        let rest := fetchAttempts transport fuel (attempt + 1)
        ⟨rest.calls + 1, RETRY_BASE_DELAY * 2 ^ (attempt - 1) :: rest.sleeps, rest.result⟩
      else ⟨1, [], Option.none⟩
    | TransportResult.timeout =>
      if attempt < MAX_RETRIES then
        let rest := fetchAttempts transport fuel (attempt + 1)
        ⟨rest.calls + 1, RETRY_BASE_DELAY * 2 ^ (attempt - 1) :: rest.sleeps, rest.result⟩
      else ⟨1, [], Option.none⟩
    | TransportResult.otherRequestError => ⟨1, [], Option.none⟩

/-- The function `_fetch_pagespeed` as a trace of transport calls, sleeps and the
returned value. -/
def fetchPagespeed (transport : ℕ → TransportResult) : FetchTrace :=
  fetchAttempts transport MAX_RETRIES 1

/-! ## `_sanitise_url`

`urllib.parse.urlparse`, `quote` and `urlunparse` are embedded over
`List Char` for the fragment of their behaviour `_sanitise_url` exercises
(scheme / netloc / path / params / query / fragment splitting, hostname
extraction, percent-encoding of UTF-8 bytes). -/

/-- Python `str.strip()` whitespace, ASCII range (`\t`, `\n`, `\x0b`,
`\x0c`, `\x0d`, `\x1c`..`\x1f`, space).  Non-ASCII whitespace needs the
Unicode property tables and is outside the embedding; the theorems about
`sanitiseUrl` are stated for ASCII inputs, where this set is exact. -/
def isPySpace (c : Char) : Bool :=
  c = '\x20' ∨ c = '\x09' ∨ c = '\x0a' ∨ c = '\x0b' ∨ c = '\x0c' ∨ c = '\x0d' ∨
    c = '\x1c' ∨ c = '\x1d' ∨ c = '\x1e' ∨ c = '\x1f'

/-- Python `str.strip()`. -/
def pyStrip (l : List Char) : List Char :=
  ((l.dropWhile isPySpace).reverse.dropWhile isPySpace).reverse

/-- The WHATWG left-strip `urlsplit` applies first:
`url.lstrip(_WHATWG_C0_CONTROL_OR_SPACE)` removes leading C0 controls
(`\x00`..`\x1f`) and spaces. -/
def lstripWhatwgC0 (l : List Char) : List Char :=
  l.dropWhile fun c => c.toNat ≤ 32

/-- The removal `urlsplit` applies next:
`for b in _UNSAFE_URL_BYTES_TO_REMOVE: url = url.replace(b, "")` deletes
every tab, CR and LF. -/
def removeUnsafeBytes (l : List Char) : List Char :=
  l.filter fun c => ¬ (c = '\x09' ∨ c = '\x0d' ∨ c = '\x0a')

/-- The set `urllib.parse.scheme_chars`. -/
def isSchemeChar (c : Char) : Bool :=
  c.isAlpha ∨ c.isDigit ∨ c = '+' ∨ c = '-' ∨ c = '.'

/-- Split a list at the first occurrence of `c`: parts before and after. -/
def splitFirst (c : Char) : List Char → Option (List Char × List Char)
  | [] => Option.none
  | x :: rest =>
    if x = c then Option.some ([], rest)
    else
      match splitFirst c rest with
      | Option.some p => Option.some (x :: p.1, p.2)
      | Option.none => Option.none

/-- The suffix after the last occurrence of `c` (the whole list when `c`
does not occur). -/
def afterLast (c : Char) (l : List Char) : List Char :=
  (l.reverse.takeWhile (fun x => x ≠ c)).reverse

/-- The scheme split of `urlsplit`: when the text up to the first `:` is a
well-formed scheme (leading ASCII letter, then `scheme_chars`), the
lowercased scheme and the remainder; otherwise no scheme. -/
def splitScheme (l : List Char) : List Char × List Char :=
  match splitFirst ':' l with
  | Option.some p =>
    if p.1 ≠ [] ∧ (p.1.headI).isAlpha ∧ p.1.all isSchemeChar then
      (p.1.map Char.toLower, p.2)
    else ([], l)
  | Option.none => ([], l)

/-- The netloc split of `urlsplit`: after a leading `//`, the netloc runs to
the first `/`, `?` or `#`. -/
def splitNetloc (l : List Char) : List Char × List Char :=
  match l with
  | '/' :: '/' :: rest =>
    (rest.takeWhile (fun c => c ≠ '/' ∧ c ≠ '?' ∧ c ≠ '#'),
     rest.dropWhile (fun c => c ≠ '/' ∧ c ≠ '?' ∧ c ≠ '#'))
  | _ => ([], l)

/-- Python `_splitparams`: split the params off the last path segment. -/
def splitParams (l : List Char) : List Char × List Char :=
  if '/' ∈ l then
    let post := afterLast '/' l
    let pre := l.take (l.length - post.length)
    match splitFirst ';' post with
    | Option.some p => (pre ++ p.1, p.2)
    | Option.none => (l, [])
  else
    match splitFirst ';' l with
    | Option.some p => (p.1, p.2)
    | Option.none => (l, [])

/-- The result of `urlparse` (a `ParseResult` six-tuple). -/
structure UrlParts where
  scheme : List Char
  netloc : List Char
  path : List Char
  params : List Char
  query : List Char
  fragment : List Char
deriving DecidableEq, Repr

/-- The splitting part of `urlparse` applied after the strip/removal steps:
scheme, then netloc, then fragment, then query, then params split off the
path. -/
def urlparseComponents (cleaned : List Char) : UrlParts :=
  let s := splitScheme cleaned
  let n := splitNetloc s.2
  let f :=
    match splitFirst '#' n.2 with
    | Option.some p => (p.1, p.2)
    | Option.none => (n.2, [])
  let q :=
    match splitFirst '?' f.1 with
    | Option.some p => (p.1, p.2)
    | Option.none => (f.1, [])
  let pp := splitParams q.1
  ⟨s.1, n.1, pp.1, pp.2, q.2, f.2⟩

/-- The netloc `urlsplit` validates, before fragment/query splitting. -/
def netlocOf (cleaned : List Char) : List Char :=
  (splitNetloc (splitScheme cleaned).2).1

/-! ### Bracketed-host validation (`_check_bracketed_host`, `ipaddress`)

CPython 3.11 `urlsplit` raises `ValueError` on a netloc with an unbalanced
bracket, and validates a balanced bracketed host via `ipaddress`: it must
be an IPvFuture literal or parse as an IP address that is not IPv4. -/

/-- A hex digit as accepted by `ipaddress._HEX_DIGITS`. -/
def isHexDigitChar (c : Char) : Bool :=
  c.isDigit ∨ ('a' ≤ c ∧ c ≤ 'f') ∨ ('A' ≤ c ∧ c ≤ 'F')

/-- The decimal value of a digit run (inputs are checked digits). -/
def decimalValue (l : List Char) : ℕ :=
  l.foldl (fun n c => n * 10 + (c.toNat - 48)) 0

/-- One octet per `IPv4Address._parse_octet`: non-empty, ASCII digits, at
most 3 characters, no leading zero (except `"0"` itself), value at most
255. -/
def isValidOctet (o : List Char) : Bool :=
  o ≠ [] ∧ o.all Char.isDigit ∧ o.length ≤ 3 ∧
    (o = ['0'] ∨ o.headI ≠ '0') ∧ decimalValue o ≤ 255

/-- A valid IPv4 address string per `IPv4Address.__init__` (no `/`) and
`_ip_int_from_string` (exactly four valid octets). -/
def isValidIPv4 (s : List Char) : Bool :=
  '/' ∉ s ∧ s ≠ [] ∧ (s.splitOn '.').length = 4 ∧ (s.splitOn '.').all isValidOctet

/-- One hextet per `IPv6Address._parse_hextet`: hex digits only, at most 4
characters, and non-empty (`int("", 16)` raises). -/
def isValidHextet (h : List Char) : Bool :=
  h.all isHexDigitChar ∧ h.length ≤ 4 ∧ h ≠ []

/-- The hextet-level validity of `IPv6Address._ip_int_from_string` once the
parts are split on `:` (and a trailing IPv4 suffix replaced by two valid
hextets): at most 9 parts, at most one empty middle part (the `::`), the
endpoints empty only next to the `::`, at least one part skipped by the
`::`, and every parsed part a valid hextet. -/
def ipv6HextetsValid (parts : List (List Char)) : Bool :=
  if 9 < parts.length then false
  else
    let n := parts.length
    let empties := (List.range n).filter fun i =>
      decide (1 ≤ i) && decide (i + 1 < n) && decide (parts.getD i ['x'] = [])
    match empties with
    | [] =>
      if n = 8 ∧ parts.getD 0 ['x'] ≠ [] ∧ parts.getD (n - 1) ['x'] ≠ [] then
        parts.all isValidHextet
      else false
    | [i] =>
      let headEmpty := parts.getD 0 ['x'] = []
      let lastEmpty := parts.getD (n - 1) ['x'] = []
      let hi := if headEmpty then i - 1 else i
      let lo := if lastEmpty then n - i - 2 else n - i - 1
      if headEmpty ∧ hi ≠ 0 then false
      else if lastEmpty ∧ lo ≠ 0 then false
      else if 8 ≤ hi + lo then false
      else
        ((List.range hi).all fun k => isValidHextet (parts.getD k [])) &&
          ((List.range lo).all fun k => isValidHextet (parts.getD (n - lo + k) []))
    | _ => false

/-- Validity of `IPv6Address._ip_int_from_string`: non-empty, at least 3
colon-separated parts, a trailing part containing `.` must be a valid IPv4
address (it stands for two hextets), then the hextet-level checks. -/
def ipv6IntValid (addr : List Char) : Bool :=
  if addr = [] then false
  else
    let parts := addr.splitOn ':'
    if parts.length < 3 then false
    else if '.' ∈ parts.getLastD [] then
      if isValidIPv4 (parts.getLastD []) then
        ipv6HextetsValid (parts.dropLast ++ [['0'], ['0']])
      else false
    else ipv6HextetsValid parts

/-- A valid IPv6 address string per `IPv6Address.__init__`: no `/`, an
optional `%scope` suffix (non-empty, no further `%`), and a valid address
part. -/
def isValidIPv6 (s : List Char) : Bool :=
  if '/' ∈ s then false
  else
    match splitFirst '%' s with
    | Option.none => ipv6IntValid s
    | Option.some p => if p.2 ≠ [] ∧ '%' ∉ p.2 then ipv6IntValid p.1 else false

/-- Python `_check_bracketed_host` as a predicate (`false` = it raises):
a host starting with `v` must match `\Av[a-fA-F0-9]+\..+\Z` (IPvFuture);
any other host must be accepted by `ipaddress.ip_address` and not be an
IPv4 address. -/
def checkBracketedHost (host : List Char) : Bool :=
  match host with
  | 'v' :: rest =>
    let hexs := rest.takeWhile isHexDigitChar
    (hexs ≠ [] : Bool) &&
      (match rest.drop hexs.length with
       | '.' :: tail => (tail ≠ [] : Bool) && tail.all (fun c => c ≠ '\x0a')
       | _ => false)
  | _ =>
    if isValidIPv4 host then false
    else isValidIPv6 host

/-- The bracketed host `urlsplit` extracts:
`netloc.partition('[')[2].partition(']')[0]`. -/
def bracketedHostOf (netloc : List Char) : List Char :=
  (match splitFirst '[' netloc with
   | Option.some p => p.2
   | Option.none => []).takeWhile fun c => c ≠ ']'

/-- The netloc conditions under which `urlsplit` raises `ValueError`: an
unbalanced bracket, or a balanced bracketed host failing
`_check_bracketed_host`. -/
def netlocBracketsInvalid (netloc : List Char) : Bool :=
  if ('[' ∈ netloc ∧ ']' ∉ netloc) ∨ (']' ∈ netloc ∧ '[' ∉ netloc) then true
  else if '[' ∈ netloc ∧ ']' ∈ netloc then ! checkBracketedHost (bracketedHostOf netloc)
  else false

/-- Python `urllib.parse.urlparse` (CPython 3.11): WHATWG left-strip, then
tab/CR/LF removal, then the netloc bracket validation — `Except.error`
models the `ValueError` it raises — then the component split.  The NFKC
`_checknetloc` check is a no-op whenever the netloc is ASCII; non-ASCII
netlocs are outside the embedding (the theorems below quantify over ASCII
inputs). -/
def pyUrlparse (l : List Char) : Except Unit UrlParts :=
  let cleaned := removeUnsafeBytes (lstripWhatwgC0 l)
  if netlocBracketsInvalid (netlocOf cleaned) = true then Except.error ()
  else Except.ok (urlparseComponents cleaned)

/-- Python `ParseResult.hostname`: the part of the netloc after the last `@`, up
to the port separator (or the bracketed IPv6 host), lowercased; `None` when
empty. -/
def hostnameOf (netloc : List Char) : Option (List Char) :=
  let hostinfo := afterLast '@' netloc
  let host :=
    match splitFirst '[' hostinfo with
    | Option.some p => p.2.takeWhile (fun c => c ≠ ']')
    | Option.none => hostinfo.takeWhile (fun c => c ≠ ':')
  if host = [] then Option.none else Option.some (host.map Char.toLower)

/-- The characters `urllib.parse.quote` never encodes:
`_ALWAYS_SAFE` plus the `safe` argument `"/:@!$&'()*+,;=-._~"` used by
`_sanitise_url`. -/
def isQuoteSafe (c : Char) : Bool :=
  c.isAlpha ∨ c.isDigit ∨ c ∈ "_.-~/:@!$&'()*+,;=".data

/-- The UTF-8 bytes of a character. -/
def utf8Bytes (c : Char) : List ℕ :=
  let n := c.toNat
  if n < 128 then [n]
  else if n < 2048 then [192 + n / 64, 128 + n % 64]
  else if n < 65536 then [224 + n / 4096, 128 + n / 64 % 64, 128 + n % 64]
  else [240 + n / 262144, 128 + n / 4096 % 64, 128 + n / 64 % 64, 128 + n % 64]

/-- The uppercase hex digit of `n % 16`. -/
def hexDigit (n : ℕ) : Char :=
  (("0123456789ABCDEF").data.get? (n % 16)).getD '0'

/-- The escape `%XX` for one byte. -/
def percentEncodeByte (b : ℕ) : List Char :=
  ['%', hexDigit (b / 16), hexDigit (b % 16)]

/-- Python `urllib.parse.quote(s, safe="/:@!$&'()*+,;=-._~")`: safe characters are
kept, every other character's UTF-8 bytes are percent-encoded. -/
def pyQuote (l : List Char) : List Char :=
  l.flatMap fun c =>
    if isQuoteSafe c then [c] else (utf8Bytes c).flatMap percentEncodeByte

/-- Python `urllib.parse.urlunparse` restricted to `urlunsplit` after rejoining
the params. -/
def pyUrlunparse (p : UrlParts) : List Char :=
  let url := if p.params ≠ [] then p.path ++ ';' :: p.params else p.path
  let url :=
    if p.netloc ≠ [] ∨ (url ≠ [] ∧ url.take 2 = ['/', '/']) then
      '/' :: '/' :: p.netloc ++
        (if url ≠ [] ∧ url.take 1 ≠ ['/'] then '/' :: url else url)
    else url
  let url := if p.scheme ≠ [] then p.scheme ++ ':' :: url else url
  let url := if p.query ≠ [] then url ++ '?' :: p.query else url
  if p.fragment ≠ [] then url ++ '#' :: p.fragment else url

/-- The function `_sanitise_url`: strip; parse (a `urlparse` `ValueError`,
modelled as `Except.error`, propagates — the function returns no value);
require an `http`/`https` scheme and a host, else `None`; otherwise
percent-encode the path and rebuild with the fragment dropped. -/
def sanitiseUrl (raw : String) : Except Unit (Option String) :=
  let l := pyStrip raw.data
  if l = [] then Except.ok Option.none
  else
    match pyUrlparse l with
    | Except.error e => Except.error e
    | Except.ok parsed =>
      if parsed.scheme ≠ "http".data ∧ parsed.scheme ≠ "https".data then
        Except.ok Option.none
      else if hostnameOf parsed.netloc = Option.none then Except.ok Option.none
      else
        Except.ok (Option.some (String.mk (pyUrlunparse
          ⟨parsed.scheme, parsed.netloc, pyQuote parsed.path, parsed.params,
           parsed.query, []⟩)))

/-- The character list `urlsplit` actually parses for a given raw input:
stripped by `_sanitise_url`, then left-stripped and purged of tab/CR/LF by
`urlsplit`. -/
def sanitiseCleaned (raw : String) : List Char :=
  removeUnsafeBytes (lstripWhatwgC0 (pyStrip raw.data))

/-! ## Concrete inputs used to exercise the definitions -/

/-- A payload whose `accessibility` category is absent and whose other three
categories carry the scores `0.873`, `0.5` and `1.0`. -/
def samplePayloadNoAccessibility : Payload :=
  { lighthouseResult := Option.some
      { categories :=
          [("performance", ⟨Option.some (873 / 1000), []⟩),
           ("best-practices", ⟨Option.some (1 / 2), []⟩),
           ("seo", ⟨Option.some 1, []⟩)]
        audits := [] }
    loadingExperience := Option.none }

/-- A payload with a single opportunity-group audit whose structured
`details.overallSavingsMs` is present but `0`, while `numericValue` is
`500`. -/
def samplePayloadZeroSavings : Payload :=
  { lighthouseResult := Option.some
      { categories :=
          [("performance",
            ⟨Option.some 0, [⟨Option.some "slow-audit", Option.some "opportunity"⟩]⟩)]
        audits :=
          [("slow-audit",
            { score := Option.some 0
              numericValue := Option.some 500
              displayValue := Option.none
              title := Option.some "A slow audit"
              description := Option.none
              details := Option.some ⟨Option.some 0⟩ })] }
    loadingExperience := Option.none }

/-- A two-URL input list. -/
def sampleUrls : List String :=
  ["https://a.com", "https://b.com"]

/-- A fetch oracle under which every job fails terminally. -/
def fetchAllFail : String → String → Option Payload :=
  fun _ _ => Option.none

/-- A transport that yields HTTP 429 on the first two attempts and then a
success carrying `samplePayloadNoAccessibility`. -/
def transport429Twice : ℕ → TransportResult :=
  fun attempt =>
    if attempt ≤ 2 then TransportResult.httpError 429
    else TransportResult.success samplePayloadNoAccessibility

/-- A transport that always yields HTTP 404. -/
def transport404 : ℕ → TransportResult :=
  fun _ => TransportResult.httpError 404

/-! # Theorems -/

/-- C8: `_extract_category_scores` rescales each present fractional category
score to an integer via `int(score * 100)` (so `0.873` yields `87`, and a
score in `[0, 1]` lands in `[0, 100]`), yields `None` for an absent
category, and on a payload missing only `accessibility` extracts the other
three categories correctly. -/
theorem extract_category_scores_correct :
    (∀ (data : Payload) (cat : String) (cd : CategoryData) (s : ℚ),
      pyLookup (lhCategories data) cat = Option.some cd →
      cd.score = Option.some s →
      catScore data cat = Option.some (pyInt (s * 100))) ∧
    (∀ (data : Payload) (cat : String),
      pyLookup (lhCategories data) cat = Option.none →
      catScore data cat = Option.none) ∧
    (∀ s : ℚ, 0 ≤ s → s ≤ 1 → 0 ≤ pyInt (s * 100) ∧ pyInt (s * 100) ≤ 100) ∧
    pyInt ((873 / 1000 : ℚ) * 100) = 87 ∧
    extractCategoryScores samplePayloadNoAccessibility =
      { performance := Option.some 87
        accessibility := Option.none
        bestPractices := Option.some 50
        seo := Option.some 100 } := by
  have h87 : pyInt ((873 / 1000 : ℚ) * 100) = 87 := by
    unfold pyInt
    rw [if_pos (by norm_num)]
    rw [Int.floor_eq_iff]
    constructor <;> norm_num
  have h50 : pyInt ((1 / 2 : ℚ) * 100) = 50 := by
    unfold pyInt
    rw [if_pos (by norm_num)]
    rw [Int.floor_eq_iff]
    constructor <;> norm_num
  have h100 : pyInt ((1 : ℚ) * 100) = 100 := by
    unfold pyInt
    rw [if_pos (by norm_num)]
    rw [Int.floor_eq_iff]
    constructor <;> norm_num
  refine ⟨?_, ?_, ?_, h87, ?_⟩
  · intro data cat cd s h1 h2
    simp [catScore, h1, h2]
  · intro data cat h
    simp [catScore, h]
  · intro s h0 h1
    have hq0 : (0 : ℚ) ≤ s * 100 := by linarith
    have hq1 : s * 100 ≤ 100 := by linarith
    unfold pyInt
    rw [if_pos hq0]
    constructor
    · exact Int.floor_nonneg.mpr hq0
    · calc ⌊s * 100⌋ ≤ ⌊(100 : ℚ)⌋ := Int.floor_le_floor hq1
        _ = 100 := by norm_num
  · have e : extractCategoryScores samplePayloadNoAccessibility =
        { performance := Option.some (pyInt ((873 / 1000 : ℚ) * 100))
          accessibility := Option.none
          bestPractices := Option.some (pyInt ((1 / 2 : ℚ) * 100))
          seo := Option.some (pyInt ((1 : ℚ) * 100)) } := rfl
    rw [e, h87, h50, h100]

/-- C9 counterexample: on `"http://[::1"` — non-empty after stripping,
scheme `http`, non-empty hostname `::1` — `_sanitise_url` does not return a
value at all: `urlparse` raises `ValueError` ("Invalid IPv6 URL") on the
unbalanced bracket and the exception propagates, so the claimed
"invalid exactly when / otherwise returns the encoded URL" dichotomy fails. -/
theorem sanitise_url_bracket_counterexample :
    sanitiseUrl "http://[::1" = Except.error () ∧
    (urlparseComponents (sanitiseCleaned "http://[::1")).scheme = "http".data ∧
    hostnameOf (urlparseComponents (sanitiseCleaned "http://[::1")).netloc =
      Option.some ("::1".data) := by
  refine ⟨by decide, by decide, by decide⟩

/-- C9 (amended): for every ASCII input string, `_sanitise_url` propagates
`urlparse`'s `ValueError` — returning no value — exactly when the stripped
input is non-empty and, after `urlsplit`'s left-strip and tab/CR/LF
removal, its netloc has an unbalanced bracket or a bracketed host that is
neither an IPvFuture literal nor a valid non-IPv4 IP address; otherwise it
returns invalid (`None`) exactly when the stripped input is empty, its
scheme is not `http`/`https`, or it has no host — so `"not a url"` and
`"ftp://x.com"` are invalid — and otherwise returns the URL with unsafe
characters percent-encoded in the path only (netloc, params and query
passed through verbatim) and any fragment stripped:
`"https://example.com/a b"` sanitises to `"https://example.com/a%20b"`,
`"http\t://x.com"` to `"http://x.com"`, and `"https://[::1]:80/p"` is
returned unchanged. -/
theorem sanitise_url_amended :
    (∀ raw : String, (∀ c ∈ raw.data, c.toNat < 128) →
      (sanitiseUrl raw = Except.error () ↔
        (pyStrip raw.data ≠ [] ∧
         netlocBracketsInvalid (netlocOf (sanitiseCleaned raw)) = true))) ∧
    (∀ raw : String, (∀ c ∈ raw.data, c.toNat < 128) →
      (sanitiseUrl raw = Except.ok Option.none ↔
        (pyStrip raw.data = [] ∨
         (netlocBracketsInvalid (netlocOf (sanitiseCleaned raw)) = false ∧
          (((urlparseComponents (sanitiseCleaned raw)).scheme ≠ "http".data ∧
            (urlparseComponents (sanitiseCleaned raw)).scheme ≠ "https".data) ∨
           hostnameOf (urlparseComponents (sanitiseCleaned raw)).netloc =
             Option.none))))) ∧
    (∀ raw clean : String, (∀ c ∈ raw.data, c.toNat < 128) →
      sanitiseUrl raw = Except.ok (Option.some clean) →
      clean = String.mk (pyUrlunparse
        ⟨(urlparseComponents (sanitiseCleaned raw)).scheme,
         (urlparseComponents (sanitiseCleaned raw)).netloc,
         pyQuote (urlparseComponents (sanitiseCleaned raw)).path,
         (urlparseComponents (sanitiseCleaned raw)).params,
         (urlparseComponents (sanitiseCleaned raw)).query, []⟩)) ∧
    sanitiseUrl "not a url" = Except.ok Option.none ∧
    sanitiseUrl "ftp://x.com" = Except.ok Option.none ∧
    sanitiseUrl "https://example.com/a b" =
      Except.ok (Option.some "https://example.com/a%20b") ∧
    sanitiseUrl "http\t://x.com" = Except.ok (Option.some "http://x.com") ∧
    sanitiseUrl "https://[::1]:80/p" =
      Except.ok (Option.some "https://[::1]:80/p") := by
  have hparse : ∀ raw : String, pyStrip raw.data ≠ [] →
      pyUrlparse (pyStrip raw.data) =
        (if netlocBracketsInvalid (netlocOf (sanitiseCleaned raw)) = true then
          Except.error ()
        else Except.ok (urlparseComponents (sanitiseCleaned raw))) := by
    intro raw _
    rfl
  refine ⟨?_, ?_, ?_, by decide, by decide, by decide, by decide, by decide⟩
  · intro raw _
    unfold sanitiseUrl
    dsimp only
    by_cases h0 : pyStrip raw.data = []
    · simp [h0]
    · rw [if_neg h0, hparse raw h0]
      by_cases hb : netlocBracketsInvalid (netlocOf (sanitiseCleaned raw)) = true
      · simp [hb, h0]
      · rw [if_neg hb]
        dsimp only
        split_ifs <;> simp_all
  · intro raw _
    unfold sanitiseUrl
    dsimp only
    by_cases h0 : pyStrip raw.data = []
    · simp [h0]
    · rw [if_neg h0, hparse raw h0]
      by_cases hb : netlocBracketsInvalid (netlocOf (sanitiseCleaned raw)) = true
      · simp [hb, h0]
      · rw [if_neg hb]
        dsimp only
        have hb2 : netlocBracketsInvalid (netlocOf (sanitiseCleaned raw)) = false := by
          simpa using hb
        split_ifs with h1 h2 <;> simp_all
  · intro raw clean _ h
    unfold sanitiseUrl at h
    dsimp only at h
    by_cases h0 : pyStrip raw.data = []
    · rw [if_pos h0] at h
      simp at h
    · rw [if_neg h0, hparse raw h0] at h
      by_cases hb : netlocBracketsInvalid (netlocOf (sanitiseCleaned raw)) = true
      · rw [if_pos hb] at h
        simp at h
      · rw [if_neg hb] at h
        dsimp only at h
        split_ifs at h
        · exact absurd h (by simp)
        · exact absurd h (by simp)
        · simp only [Except.ok.injEq, Option.some.injEq] at h
          exact h.symm

/-- C3: `_fetch_pagespeed` makes between 1 and `MAX_RETRIES` transport
calls and yields exactly one terminal outcome: under a transport that
returns HTTP 429 exactly `k` times (`k < MAX_RETRIES`) and then succeeds,
it returns the payload after exactly `k + 1` calls; under a transport that
always returns the non-retryable HTTP 404, it returns `None` after exactly
one call. -/
theorem fetch_retry_outcomes :
    (∀ transport : ℕ → TransportResult,
      1 ≤ (fetchPagespeed transport).calls ∧
      (fetchPagespeed transport).calls ≤ MAX_RETRIES) ∧
    (∀ (transport : ℕ → TransportResult) (p : Payload) (k : ℕ),
      k < MAX_RETRIES →
      (∀ i, 1 ≤ i → i ≤ k → transport i = TransportResult.httpError 429) →
      transport (k + 1) = TransportResult.success p →
      (fetchPagespeed transport).result = Option.some p ∧
      (fetchPagespeed transport).calls = k + 1) ∧
    (∀ transport : ℕ → TransportResult,
      (∀ i, transport i = TransportResult.httpError 404) →
      (fetchPagespeed transport).result = Option.none ∧
      (fetchPagespeed transport).calls = 1) := by
  refine ⟨?_, ?_, ?_⟩
  · intro transport
    cases h1 : transport 1 <;> cases h2 : transport 2 <;> cases h3 : transport 3 <;>
        simp [fetchPagespeed, fetchAttempts, h1, h2, h3, MAX_RETRIES,
          RETRYABLE_STATUS_CODES] <;>
      split_ifs <;> simp_all
  · intro transport p k hk h429 hsucc
    have hk3 : k = 0 ∨ k = 1 ∨ k = 2 := by
      simp only [MAX_RETRIES] at hk
      omega
    rcases hk3 with rfl | rfl | rfl
    · simp only [Nat.zero_add] at hsucc
      simp [fetchPagespeed, fetchAttempts, hsucc, MAX_RETRIES]
    · have e1 : transport 1 = TransportResult.httpError 429 := h429 1 le_rfl le_rfl
      simp only [Nat.reduceAdd] at hsucc
      simp [fetchPagespeed, fetchAttempts, e1, hsucc, MAX_RETRIES, RETRYABLE_STATUS_CODES]
    · have e1 : transport 1 = TransportResult.httpError 429 := h429 1 le_rfl (by omega)
      have e2 : transport 2 = TransportResult.httpError 429 := h429 2 (by omega) le_rfl
      simp only [Nat.reduceAdd] at hsucc
      simp [fetchPagespeed, fetchAttempts, e1, e2, hsucc, MAX_RETRIES,
        RETRYABLE_STATUS_CODES]
  · intro transport h404
    simp [fetchPagespeed, fetchAttempts, h404 1, MAX_RETRIES, RETRYABLE_STATUS_CODES]

/-- C4: whenever attempt `n` (1-based) fails retryably with attempts
remaining, `_fetch_pagespeed` sleeps exactly
`RETRY_BASE_DELAY * 2 ^ (n - 1)` seconds before the next attempt: the
`j`-th recorded sleep (0-based, after attempt `j + 1`) is
`RETRY_BASE_DELAY * 2 ^ j`, and at most `MAX_RETRIES - 1` sleeps occur. -/
theorem fetch_backoff_delays :
    (∀ transport : ℕ → TransportResult,
      (fetchPagespeed transport).sleeps.length < MAX_RETRIES) ∧
    (∀ (transport : ℕ → TransportResult) (j : ℕ),
      j < (fetchPagespeed transport).sleeps.length →
      (fetchPagespeed transport).sleeps.getD j 0 = RETRY_BASE_DELAY * 2 ^ j) := by
  have key : ∀ transport : ℕ → TransportResult,
      (fetchPagespeed transport).sleeps = [] ∨
      (fetchPagespeed transport).sleeps = [RETRY_BASE_DELAY * 2 ^ 0] ∨
      (fetchPagespeed transport).sleeps =
        [RETRY_BASE_DELAY * 2 ^ 0, RETRY_BASE_DELAY * 2 ^ 1] := by
    intro transport
    cases h1 : transport 1 <;> cases h2 : transport 2 <;> cases h3 : transport 3 <;>
        simp [fetchPagespeed, fetchAttempts, h1, h2, h3, MAX_RETRIES,
          RETRYABLE_STATUS_CODES] <;>
      split_ifs <;> simp_all
  constructor
  · intro transport
    rcases key transport with h | h | h <;> simp [h, MAX_RETRIES]
  · intro transport j hj
    rcases key transport with h | h | h <;>
        (rw [h] at hj ⊢; simp only [List.length_nil, List.length_cons] at hj)
    · omega
    · interval_cases j
      simp
    · interval_cases j <;> simp

/-- The append loop of `_extract_opportunities` is the filter-map over the
audit refs by group and non-perfect score. -/
theorem collectOpportunities_eq_filter_map (audits : List (String × Audit)) :
    ∀ refs : List AuditRef,
      collectOpportunities audits refs =
        (refs.filter fun ref =>
          decide (ref.group = Option.some "opportunity" ∧
            ((pyLookup audits (ref.id.getD "")).getD emptyAudit).score ≠
              Option.some 1)).map (mkOpportunity audits)
  | [] => rfl
  | ref :: rest => by
    rw [collectOpportunities]
    by_cases hg : ref.group = Option.some "opportunity"
    · by_cases hs : ((pyLookup audits (ref.id.getD "")).getD emptyAudit).score =
          Option.some 1
      · simp [hg, hs, collectOpportunities_eq_filter_map audits rest]
      · simp [hg, hs, collectOpportunities_eq_filter_map audits rest]
    · simp [hg, collectOpportunities_eq_filter_map audits rest]

/-- C5 counterexample: on `samplePayloadZeroSavings` the structured
`details.overallSavingsMs` field is present with value `0`, yet the
extracted `savings_ms` is the raw `numericValue` `500` — the fallback also
fires on a present-but-zero savings field, not only on an absent one. -/
theorem opportunities_zero_savings_counterexample :
    ((pyLookup (lhAudits samplePayloadZeroSavings) "slow-audit").getD
        emptyAudit).details = Option.some ⟨Option.some 0⟩ ∧
    (extractOpportunities samplePayloadZeroSavings).map
        (fun o => o.savings_ms) = [500] ∧
    (500 : ℚ) ≠ 0 := by
  refine ⟨by decide, by decide, by norm_num⟩

/-- C5 (amended): `_extract_opportunities` keeps exactly the
performance-category audit refs whose group is `"opportunity"` and whose
audit score is not `1`, assigns each a `savings_ms` of
`details.overallSavingsMs or numericValue` — the fallback to `numericValue`
fires whenever the structured field is absent *or falsy (zero)*, and a
falsy final value is coerced to `0` — sorts descending by `savings_ms`
(stably), and truncates to at most `MAX_OPPORTUNITIES = 10` entries. -/
theorem extract_opportunities_amended :
    (∀ data : Payload,
      extractOpportunities data =
        ((((perfAuditRefs data).filter fun ref =>
            decide (ref.group = Option.some "opportunity" ∧
              ((pyLookup (lhAudits data) (ref.id.getD "")).getD emptyAudit).score ≠
                Option.some 1)).map
          (mkOpportunity (lhAudits data))).insertionSort oppGE).take
          MAX_OPPORTUNITIES) ∧
    (∀ (audits : List (String × Audit)) (ref : AuditRef),
      (mkOpportunity audits ref).savings_ms =
        pyTruthyD (pyOrNum
          (((pyLookup audits (ref.id.getD "")).getD emptyAudit).details.getD
              emptyDetails).overallSavingsMs
          ((pyLookup audits (ref.id.getD "")).getD emptyAudit).numericValue) 0) ∧
    (∀ data : Payload, (extractOpportunities data).Pairwise oppGE) ∧
    (∀ data : Payload, (extractOpportunities data).length ≤ MAX_OPPORTUNITIES) := by
  refine ⟨?_, ?_, ?_, ?_⟩
  · intro data
    rw [extractOpportunities, collectOpportunities_eq_filter_map]
  · intro audits ref
    rfl
  · intro data
    have hs : List.Sorted oppGE
        ((collectOpportunities (lhAudits data) (perfAuditRefs data)).insertionSort oppGE) :=
      List.sorted_insertionSort oppGE _
    exact List.Pairwise.sublist (List.take_sublist _ _) hs
  · intro data
    exact le_trans (List.length_take_le _ _) le_rfl

/-- The refilled balance, unfolded. -/
theorem refillAt_tokens (rate now : ℚ) (s : LimiterState) :
    (refillAt rate now s).tokens = min rate (s.tokens + (now - s.lastRefill) * rate) :=
  rfl

/-- A step that grants the caller debits one token from the refilled state. -/
theorem acquireStep_of_le (rate now : ℚ) (s : LimiterState)
    (h : 1 ≤ (refillAt rate now s).tokens) :
    acquireStep rate now s = (⟨(refillAt rate now s).tokens - 1, now⟩, true) := by
  unfold acquireStep
  rw [if_pos h]

/-- A step that denies the caller leaves the refilled state unchanged. -/
theorem acquireStep_of_lt (rate now : ℚ) (s : LimiterState)
    (h : ¬ 1 ≤ (refillAt rate now s).tokens) :
    acquireStep rate now s = (refillAt rate now s, false) := by
  unfold acquireStep
  rw [if_neg h]

/-- An `acquireStep` sets `last_refill` to the current instant. -/
theorem acquireStep_lastRefill (rate now : ℚ) (s : LimiterState) :
    (acquireStep rate now s).1.lastRefill = now := by
  by_cases h : 1 ≤ (refillAt rate now s).tokens
  · rw [acquireStep_of_le rate now s h]
  · rw [acquireStep_of_lt rate now s h]
    rfl

/-- The refill keeps the token balance within `[0, rate]`. -/
theorem refillAt_bounds (rate now : ℚ) (s : LimiterState) (hr : 0 ≤ rate)
    (h0 : 0 ≤ s.tokens) (hm : s.lastRefill ≤ now) :
    0 ≤ (refillAt rate now s).tokens ∧ (refillAt rate now s).tokens ≤ rate := by
  rw [refillAt_tokens]
  constructor
  · exact le_min hr (by nlinarith)
  · exact min_le_left _ _

/-- One atomic check-refill-debit step preserves the invariant. -/
theorem acquireStep_inv (rate now : ℚ) (s : LimiterState) (hr : 0 ≤ rate)
    (hinv : limInv rate s) (hm : s.lastRefill ≤ now) :
    limInv rate (acquireStep rate now s).1 := by
  obtain ⟨ha, hb⟩ := refillAt_bounds rate now s hr hinv.1 hm
  by_cases h : 1 ≤ (refillAt rate now s).tokens
  · rw [acquireStep_of_le rate now s h]
    exact ⟨by simp only; linarith, by simp only; linarith⟩
  · rw [acquireStep_of_lt rate now s h]
    exact ⟨ha, hb⟩

/-- The invariant holds after any monotone sequence of steps. -/
theorem runSteps_inv (rate : ℚ) (hr : 0 ≤ rate) :
    ∀ (ts : List ℚ) (s : LimiterState), limInv rate s →
      List.Chain (· ≤ ·) s.lastRefill ts →
      limInv rate (runSteps rate ts s).1
  | [], _, hinv, _ => hinv
  | t :: ts, s, hinv, hchain => by
    rw [List.chain_cons] at hchain
    have h1 := acquireStep_inv rate t s hr hinv hchain.1
    have h2 := acquireStep_lastRefill rate t s
    have h3 := runSteps_inv rate hr ts (acquireStep rate t s).1 h1
      (by rw [h2]; exact hchain.2)
    simpa [runSteps] using h3

/-- C6: the bucket invariant `0 ≤ tokens ≤ capacity` (capacity = the rate)
holds initially and after every atomic check-refill-debit step, each refill
is capped at the capacity, and a step that lets its caller proceed debits
exactly `1.0` token from a refilled balance of at least `1.0`. -/
theorem rate_limiter_invariant (rate t0 : ℚ) (ts : List ℚ) (hr : 0 ≤ rate)
    (hchain : List.Chain (· ≤ ·) t0 ts) :
    limInv rate (initLimiter rate t0) ∧
    (∀ (s : LimiterState) (now : ℚ), limInv rate s → s.lastRefill ≤ now →
      limInv rate (acquireStep rate now s).1 ∧
      ((acquireStep rate now s).2 = true →
        1 ≤ (refillAt rate now s).tokens ∧
        (acquireStep rate now s).1.tokens = (refillAt rate now s).tokens - 1)) ∧
    limInv rate (runSteps rate ts (initLimiter rate t0)).1 := by
  refine ⟨⟨hr, le_rfl⟩, ?_, ?_⟩
  · intro s now hinv hm
    refine ⟨acquireStep_inv rate now s hr hinv hm, ?_⟩
    intro htrue
    by_cases h : 1 ≤ (refillAt rate now s).tokens
    · rw [acquireStep_of_le rate now s h]
      exact ⟨h, rfl⟩
    · rw [acquireStep_of_lt rate now s h] at htrue
      simp at htrue
  · exact runSteps_inv rate hr ts (initLimiter rate t0) ⟨hr, le_rfl⟩ hchain

/-- C6 witness at `rate = 5`, `t0 = 0`, instants `[0, 1]`. -/
theorem rate_limiter_invariant_witness :
    limInv 5 (runSteps 5 [0, 1] (initLimiter 5 0)).1 :=
  (rate_limiter_invariant 5 0 [0, 1] (by norm_num)
    (by simp [List.chain_cons])).2.2

/-- Debits plus the remaining balance are covered by the starting balance
plus the elapsed-time refill. -/
theorem runSteps_count_le (rate : ℚ) :
    ∀ (ts : List ℚ) (s : LimiterState),
      ((runSteps rate ts s).2 : ℚ) + (runSteps rate ts s).1.tokens ≤
        s.tokens + ((runSteps rate ts s).1.lastRefill - s.lastRefill) * rate
  | [], s => by simp [runSteps]
  | t :: ts, s => by
    have ih := runSteps_count_le rate ts (acquireStep rate t s).1
    have hlr := acquireStep_lastRefill rate t s
    have hmr : (refillAt rate t s).tokens ≤ s.tokens + (t - s.lastRefill) * rate := by
      rw [refillAt_tokens]
      exact min_le_right _ _
    have hstep : (acquireStep rate t s).1.tokens +
        (if (acquireStep rate t s).2 then (1 : ℚ) else 0) ≤
        s.tokens + (t - s.lastRefill) * rate := by
      by_cases h : 1 ≤ (refillAt rate t s).tokens
      · rw [acquireStep_of_le rate t s h]
        show (refillAt rate t s).tokens - 1 + (1 : ℚ) ≤
          s.tokens + (t - s.lastRefill) * rate
        linarith
      · rw [acquireStep_of_lt rate t s h]
        show (refillAt rate t s).tokens + (0 : ℚ) ≤
          s.tokens + (t - s.lastRefill) * rate
        linarith
    rw [hlr] at ih
    simp only [runSteps]
    push_cast
    split_ifs at hstep ⊢ with hd <;> linarith [ih, hstep]

/-- The final `last_refill` stays within the window. -/
theorem runSteps_lastRefill_le (rate B : ℚ) :
    ∀ (ts : List ℚ) (s : LimiterState), s.lastRefill ≤ B → (∀ t ∈ ts, t ≤ B) →
      (runSteps rate ts s).1.lastRefill ≤ B
  | [], _, hs, _ => hs
  | t :: ts, s, _, hts => by
    have ih := runSteps_lastRefill_le rate B ts (acquireStep rate t s).1
      (by rw [acquireStep_lastRefill]; exact hts t (by simp))
      (fun u hu => hts u (by simp [hu]))
    simpa [runSteps] using ih

/-- C7: starting a window of length `T ≥ 1` at `t0` with a reachable
balance (`0 ≤ tokens ≤ rate`), the number of successful debits granted at
instants inside the window never exceeds `⌈rate * T⌉` plus the burst
capacity `rate`. -/
theorem rate_limiter_window_debits (rate T t0 tok0 : ℚ) (ts : List ℚ)
    (hr : 0 ≤ rate) (hT : 1 ≤ T) (h0 : 0 ≤ tok0) (hcap : tok0 ≤ rate)
    (hchain : List.Chain (· ≤ ·) t0 ts) (hwin : ∀ t ∈ ts, t ≤ t0 + T) :
    ((runSteps rate ts ⟨tok0, t0⟩).2 : ℚ) ≤ ⌈rate * T⌉ + rate := by
  have hpot := runSteps_count_le rate ts ⟨tok0, t0⟩
  have hinv := runSteps_inv rate hr ts ⟨tok0, t0⟩ ⟨h0, hcap⟩ hchain
  have hlr : (runSteps rate ts ⟨tok0, t0⟩).1.lastRefill ≤ t0 + T :=
    runSteps_lastRefill_le rate (t0 + T) ts ⟨tok0, t0⟩ (by linarith) hwin
  have hceil : rate * T ≤ (⌈rate * T⌉ : ℚ) := Int.le_ceil _
  have htok : 0 ≤ (runSteps rate ts ⟨tok0, t0⟩).1.tokens := hinv.1
  have hmul : ((runSteps rate ts ⟨tok0, t0⟩).1.lastRefill - t0) * rate ≤ T * rate := by
    apply mul_le_mul_of_nonneg_right _ hr
    linarith
  have hcomm : T * rate = rate * T := mul_comm T rate
  linarith

/-- C7 witness at `rate = 5`, `T = 1`, two instants inside the window. -/
theorem rate_limiter_window_debits_witness :
    ((runSteps 5 [0, 1] ⟨5, 0⟩).2 : ℚ) ≤ ⌈(5 : ℚ) * 1⌉ + 5 :=
  rate_limiter_window_debits 5 1 0 5 [0, 1] (by norm_num) le_rfl (by norm_num)
    le_rfl (by simp [List.chain_cons]) (by intro t ht; fin_cases ht <;> norm_num)

/-- C10: `acquire` terminates exactly for rates of at least one token per
second.  With `rate < 1` the refill is capped at `capacity = rate < 1.0`,
so the check `tokens >= 1.0` can never succeed and the loop runs forever
whatever the check instants; with `rate ≥ 1` the check succeeds within two
iterations, the second coming after the `1.0 / rate` sleep. -/
theorem rate_limiter_termination (rate : ℚ) :
    (rate < 1 → ∀ (ts : List ℚ) (s : LimiterState),
      acquireLoop rate ts s = Option.none) ∧
    (1 ≤ rate → ∀ (s : LimiterState) (t1 t2 : ℚ) (ts : List ℚ),
      0 ≤ s.tokens → s.lastRefill ≤ t1 → t1 + 1 / rate ≤ t2 →
      (acquireLoop rate (t1 :: t2 :: ts) s).isSome = true) := by
  constructor
  · intro hlt ts
    induction ts with
    | nil => intro s; rfl
    | cons t ts ih =>
      intro s
      have hmin : ¬ (1 : ℚ) ≤ (refillAt rate t s).tokens := by
        have : (refillAt rate t s).tokens ≤ rate := min_le_left _ _
        linarith
      simp only [acquireLoop, acquireStep, if_neg hmin]
      exact ih _
  · intro hge s t1 t2 ts h0 hm ht
    have hrpos : (0 : ℚ) < rate := lt_of_lt_of_le one_pos hge
    by_cases h1 : (1 : ℚ) ≤ (refillAt rate t1 s).tokens
    · simp [acquireLoop, acquireStep, if_pos h1]
    · have h1tok : 0 ≤ (refillAt rate t1 s).tokens :=
        (refillAt_bounds rate t1 s (le_of_lt hrpos) h0 hm).1
      have hgap : (1 : ℚ) ≤ (t2 - t1) * rate := by
        have h2 : 1 / rate ≤ t2 - t1 := by linarith
        have h3 := mul_le_mul_of_nonneg_right h2 (le_of_lt hrpos)
        rwa [one_div_mul_cancel (ne_of_gt hrpos)] at h3
      have h2tok : (1 : ℚ) ≤ (refillAt rate t2 (refillAt rate t1 s)).tokens := by
        unfold refillAt
        simp only
        exact le_min hge (by unfold refillAt at h1tok; simp only at h1tok; nlinarith)
      simp [acquireLoop, acquireStep, if_neg h1, if_pos h2tok]

/-- C10 witness: a limiter at rate `1/2` never grants, a limiter at rate
`2` grants within two checks. -/
theorem rate_limiter_termination_witness :
    acquireLoop (1 / 2 : ℚ) [0, 1, 2] (initLimiter (1 / 2) 0) = Option.none ∧
    (acquireLoop 2 [0, 1] (initLimiter 2 0)).isSome = true :=
  ⟨(rate_limiter_termination (1 / 2)).1 (by norm_num) [0, 1, 2] _,
   (rate_limiter_termination 2).2 (by norm_num) (initLimiter 2 0) 0 1 []
     (by norm_num [initLimiter]) (by norm_num [initLimiter]) (by norm_num)⟩

/-- A key absent from every binding looks up to nothing. -/
theorem pyLookup_eq_none {α : Type} :
    ∀ (ps : List (String × α)) (k : String),
      k ∉ ps.map Prod.fst → pyLookup ps k = Option.none
  | [], _, _ => rfl
  | (k', _) :: rest, k, h => by
    have h1 : k ∉ rest.map Prod.fst := fun hm => h (by simp [hm])
    have h2 : ¬ k' = k := fun he => h (by simp [he])
    simp [pyLookup, pyLookup_eq_none rest k h1, h2]

/-- The keys of the enumeration bindings are the listed values. -/
theorem enumPairs_map_fst :
    ∀ (l : List String) (i : ℕ), (enumPairs l i).map Prod.fst = l
  | [], _ => rfl
  | _ :: rest, i => by simp [enumPairs, enumPairs_map_fst rest (i + 1)]

/-- On a duplicate-free list the enumeration dict sends the `i`-th value to
`base + i`. -/
theorem pyLookup_enumPairs :
    ∀ (l : List String), l.Nodup → ∀ (base i : ℕ) (h : i < l.length),
      pyLookup (enumPairs l base) (l.get ⟨i, h⟩) = Option.some (base + i)
  | [], _, _, i, h => absurd h (by simp)
  | u :: rest, hnd, base, 0, _ => by
    rw [List.nodup_cons] at hnd
    have hnone : pyLookup (enumPairs rest (base + 1)) u = Option.none :=
      pyLookup_eq_none _ u (by rw [enumPairs_map_fst]; exact hnd.1)
    simp [enumPairs, pyLookup, hnone]
  | u :: rest, hnd, base, i + 1, h => by
    rw [List.nodup_cons] at hnd
    have ih := pyLookup_enumPairs rest hnd.2 (base + 1) i (by simpa using h)
    simp only [enumPairs, pyLookup, List.get_cons_succ, ih]
    congr 1
    omega

/-- The dict `url_order` sends the `i`-th input URL to `i` when the URLs are distinct. -/
theorem urlOrderGet_get (urls : List String) (hnd : urls.Nodup) (i : ℕ)
    (h : i < urls.length) :
    urlOrderGet urls (urls.get ⟨i, h⟩) = i := by
  unfold urlOrderGet pyDictGet
  rw [pyLookup_enumPairs urls hnd 0 i h]
  simp

/-- A record built by `_scan_single` carries its job's URL. -/
theorem scanSingle_url (fetch : String → String → Option Payload)
    (url strategy : String) : (scanSingle fetch url strategy).url = url := by
  unfold scanSingle
  cases fetch url strategy <;> rfl

/-- A record built by `_scan_single` carries its job's strategy. -/
theorem scanSingle_strategy (fetch : String → String → Option Payload)
    (url strategy : String) : (scanSingle fetch url strategy).strategy = strategy := by
  unfold scanSingle
  cases fetch url strategy <;> rfl

/-- The job list pairs every URL with both strategies. -/
theorem scanJobs_cons (u : String) (rest : List String) :
    scanJobs (u :: rest) = (u, "mobile") :: (u, "desktop") :: scanJobs rest := by
  simp [scanJobs, STRATEGIES]

/-- The job list has `2 * len(urls)` entries. -/
theorem scanJobs_length : ∀ urls : List String,
    (scanJobs urls).length = 2 * urls.length
  | [] => rfl
  | u :: rest => by
    rw [scanJobs_cons]
    simp [scanJobs_length rest]
    omega

/-- Every job's URL is an input URL. -/
theorem scanJobs_fst_mem (urls : List String) (j : String × String)
    (hj : j ∈ scanJobs urls) : j.1 ∈ urls := by
  unfold scanJobs at hj
  rw [List.mem_flatMap] at hj
  obtain ⟨u, hu, hj2⟩ := hj
  rw [List.mem_map] at hj2
  obtain ⟨s, _, rfl⟩ := hj2
  exact hu

/-- The `n`-th job is `(urls[n / 2], STRATEGIES[n % 2])`. -/
theorem scanJobs_get :
    ∀ (urls : List String) (n : ℕ) (h : n < (scanJobs urls).length)
      (h2 : n / 2 < urls.length),
      (scanJobs urls).get ⟨n, h⟩ =
        (urls.get ⟨n / 2, h2⟩, if n % 2 = 0 then "mobile" else "desktop")
  | [], n, h, _ => absurd h (by simp [scanJobs])
  | u :: rest, 0, h, h2 => by
    rw [List.get_of_eq (scanJobs_cons u rest)]
    rfl
  | u :: rest, 1, h, h2 => by
    rw [List.get_of_eq (scanJobs_cons u rest)]
    rfl
  | u :: rest, n + 2, h, h2 => by
    have hlen : n < (scanJobs rest).length := by
      rw [scanJobs_length] at h ⊢
      simp only [List.length_cons] at h
      omega
    have hlen2 : n / 2 < rest.length := by
      rw [scanJobs_length] at hlen
      omega
    have ih := scanJobs_get rest n hlen hlen2
    have hdiv : (n + 2) / 2 = n / 2 + 1 := by omega
    have hmod : (n + 2) % 2 = n % 2 := by omega
    rw [List.get_of_eq (scanJobs_cons u rest)]
    simp only [List.get_cons_succ]
    rw [ih]
    simp only [hdiv, hmod, List.get_cons_succ]

/-- With distinct URLs, the sort key of the `n`-th collected record is the
pair `(n / 2, n % 2)`. -/
theorem sortKey_scanResults (fetch : String → String → Option Payload)
    (urls : List String) (hnd : urls.Nodup) (n : ℕ)
    (h : n < (scanResults fetch urls).length) :
    sortKey urls ((scanResults fetch urls).get ⟨n, h⟩) = (n / 2, n % 2) := by
  have hjob : n < (scanJobs urls).length := by
    simpa [scanResults] using h
  have hhalf : n / 2 < urls.length := by
    rw [scanJobs_length] at hjob
    omega
  have hget : (scanResults fetch urls).get ⟨n, h⟩ =
      scanSingle fetch ((scanJobs urls).get ⟨n, hjob⟩).1
        ((scanJobs urls).get ⟨n, hjob⟩).2 := by
    simp [scanResults]
  rw [hget, scanJobs_get urls n hjob hhalf]
  unfold sortKey
  rw [scanSingle_url, scanSingle_strategy]
  have hurl : urlOrderGet urls (urls.get ⟨n / 2, hhalf⟩) = n / 2 :=
    urlOrderGet_get urls hnd (n / 2) hhalf
  by_cases hm : n % 2 = 0
  · rw [if_pos hm, hurl]
    have : strategyOrderGet "mobile" = 0 := by decide
    rw [this, hm]
  · rw [if_neg hm, hurl]
    have h1 : n % 2 = 1 := by omega
    have : strategyOrderGet "desktop" = 1 := by decide
    rw [this, h1]

/-- With distinct URLs the collected records are strictly increasing in
their sort key (in job order). -/
theorem scanResults_pairwise (fetch : String → String → Option Payload)
    (urls : List String) (hnd : urls.Nodup) :
    List.Pairwise (recLT urls) (scanResults fetch urls) := by
  rw [List.pairwise_iff_get]
  intro i j hij
  unfold recLT
  rw [sortKey_scanResults fetch urls hnd i.1 i.2,
    sortKey_scanResults fetch urls hnd j.1 j.2]
  unfold keyLT
  have := hij
  simp only [Fin.lt_def] at this
  omega

/-- A strictly smaller key is a different key. -/
theorem keyLT_ne (x y : ℕ × ℕ) (h : keyLT x y) : x ≠ y := by
  intro he
  subst he
  unfold keyLT at h
  omega

/-- A non-strict key comparison together with distinct keys is strict. -/
theorem keyLE_ne_lt (x y : ℕ × ℕ) (hle : keyLE x y) (hne : x ≠ y) : keyLT x y := by
  obtain ⟨x1, x2⟩ := x
  obtain ⟨y1, y2⟩ := y
  have hne2 : ¬(x1 = y1 ∧ x2 = y2) := by
    intro hc
    exact hne (by rw [hc.1, hc.2])
  unfold keyLE at hle
  unfold keyLT
  omega

/-- C2: whatever order the concurrent workers complete in — any permutation
of the collected records — the final stable sort restores exactly the
canonical order: record `2 i + j` belongs to the `i`-th input URL under the
`j`-th strategy (mobile before desktop).  Two runs differing only in
completion timing therefore produce identical output. -/
theorem scan_order_deterministic (urls : List String)
    (fetch : String → String → Option Payload) (completions : List ResultRecord)
    (hnd : urls.Nodup) (hperm : completions.Perm (scanResults fetch urls)) :
    scanUrls urls completions = scanResults fetch urls := by
  have hperm2 : (scanUrls urls completions).Perm (scanResults fetch urls) :=
    (List.perm_insertionSort (recLE urls) completions).trans hperm
  have hsortedLE : List.Sorted (recLE urls) (scanUrls urls completions) :=
    List.sorted_insertionSort (recLE urls) completions
  have hcanon : List.Pairwise (recLT urls) (scanResults fetch urls) :=
    scanResults_pairwise fetch urls hnd
  have hkeyne : List.Pairwise
      (fun a b : ResultRecord => sortKey urls a ≠ sortKey urls b)
      (scanResults fetch urls) :=
    hcanon.imp fun hab => keyLT_ne _ _ hab
  have hkeyne2 : List.Pairwise
      (fun a b : ResultRecord => sortKey urls a ≠ sortKey urls b)
      (scanUrls urls completions) :=
    ((hperm2.pairwise_iff fun hab => Ne.symm hab).mpr) hkeyne
  have hstrict : List.Pairwise (recLT urls) (scanUrls urls completions) :=
    (hsortedLE.and hkeyne2).imp fun hab => keyLE_ne_lt _ _ hab.1 hab.2
  exact List.eq_of_perm_of_sorted hperm2 hstrict hcanon

/-- C2 witness: for the two sample URLs with every fetch failing, sorting
the identity completion order reproduces the canonical record list. -/
theorem scan_order_deterministic_witness :
    scanUrls sampleUrls (scanResults fetchAllFail sampleUrls) =
      scanResults fetchAllFail sampleUrls :=
  scan_order_deterministic sampleUrls fetchAllFail
    (scanResults fetchAllFail sampleUrls) (by decide) (List.Perm.refl _)

/-- Each (URL, strategy) pair occurs exactly once among the jobs when the
URLs are distinct. -/
theorem scanJobs_countP (u s : String) :
    ∀ urls : List String, urls.Nodup → u ∈ urls → s ∈ STRATEGIES →
      (scanJobs urls).countP (fun j => decide (j.1 = u ∧ j.2 = s)) = 1
  | [], _, hu, _ => absurd hu (by simp)
  | u' :: rest, hnd, hu, hs => by
    rw [List.nodup_cons] at hnd
    rw [scanJobs_cons, List.countP_cons, List.countP_cons]
    by_cases he : u' = u
    · subst he
      have hzero : (scanJobs rest).countP
          (fun j => decide (j.1 = u' ∧ j.2 = s)) = 0 := by
        rw [List.countP_eq_zero]
        intro j hj
        simp only [decide_eq_true_eq]
        intro hc
        exact hnd.1 (hc.1 ▸ scanJobs_fst_mem rest j hj)
      rw [hzero]
      have hs2 : s = "mobile" ∨ s = "desktop" := by
        simpa [STRATEGIES] using hs
      rcases hs2 with rfl | rfl <;> simp
    · have hu2 : u ∈ rest := by
        rcases List.mem_cons.mp hu with h | h
        · exact absurd h.symm he
        · exact h
      rw [scanJobs_countP u s rest hnd.2 hu2 hs]
      simp [he]

/-- C1: for distinct input URLs, `scan_urls` emits exactly
`len(urls) * 2` records — one per (url, strategy) pair, with no duplicates
and no omissions, whatever order the workers completed in — and a job whose
fetch fails terminally (or whose worker raises, which builds the same dict)
still contributes the all-null record for its URL and strategy. -/
theorem scan_complete_records (urls : List String)
    (fetch : String → String → Option Payload) (completions : List ResultRecord)
    (hnd : urls.Nodup) (hperm : completions.Perm (scanResults fetch urls)) :
    (scanUrls urls completions).length = urls.length * 2 ∧
    (∀ u ∈ urls, ∀ s ∈ STRATEGIES,
      (scanUrls urls completions).countP
        (fun r => decide (r.url = u ∧ r.strategy = s)) = 1) ∧
    (∀ u ∈ urls, ∀ s ∈ STRATEGIES, fetch u s = Option.none →
      nullRecord u s ∈ scanUrls urls completions) ∧
    (∀ u s : String,
      (nullRecord u s).url = u ∧ (nullRecord u s).strategy = s ∧
      (nullRecord u s).performance = Option.none ∧
      (nullRecord u s).accessibility = Option.none ∧
      (nullRecord u s).bestPractices = Option.none ∧
      (nullRecord u s).seo = Option.none ∧
      (nullRecord u s).lab_metrics = [] ∧ (nullRecord u s).field_data = [] ∧
      (nullRecord u s).opportunities = [] ∧ (nullRecord u s).diagnostics = []) := by
  have hperm2 : (scanUrls urls completions).Perm (scanResults fetch urls) :=
    (List.perm_insertionSort (recLE urls) completions).trans hperm
  refine ⟨?_, ?_, ?_, ?_⟩
  · rw [hperm2.length_eq]
    simp only [scanResults, List.length_map]
    rw [scanJobs_length]
    omega
  · intro u hu s hs
    rw [List.Perm.countP_eq _ hperm2]
    unfold scanResults
    rw [List.countP_map]
    have hcong : ∀ j ∈ scanJobs urls,
        (((fun r => decide (r.url = u ∧ r.strategy = s)) ∘
          fun j : String × String => scanSingle fetch j.1 j.2) j = true ↔
        (fun j : String × String => decide (j.1 = u ∧ j.2 = s)) j = true) := by
      intro j _
      simp [Function.comp, scanSingle_url, scanSingle_strategy]
    rw [List.countP_congr hcong]
    exact scanJobs_countP u s urls hnd hu hs
  · intro u hu s hs hfail
    rw [hperm2.mem_iff]
    have hrec : nullRecord u s = scanSingle fetch u s := by
      unfold scanSingle
      rw [hfail]
    rw [hrec]
    unfold scanResults
    have hjob : (u, s) ∈ scanJobs urls := by
      unfold scanJobs
      rw [List.mem_flatMap]
      exact ⟨u, hu, List.mem_map_of_mem _ hs⟩
    exact List.mem_map_of_mem _ hjob
  · intro u s
    exact ⟨rfl, rfl, rfl, rfl, rfl, rfl, rfl, rfl, rfl, rfl⟩

/-- C1 witness: two sample URLs with every fetch failing yield four records. -/
theorem scan_complete_records_witness :
    (scanUrls sampleUrls (scanResults fetchAllFail sampleUrls)).length =
      sampleUrls.length * 2 :=
  (scan_complete_records sampleUrls fetchAllFail
    (scanResults fetchAllFail sampleUrls) (by decide) (List.Perm.refl _)).1

end Scanner
